import Mathlib

/-!
Shallow embedding of `attckforge.py` (usualdork/ATT-CKforge).

The script downloads a MITRE ATT&CK dataset (a JSON document whose top level
is `{"objects": [...]}`), reorganises it into a per-platform matrix grouped
by tactic (`build_matrix_for_platform`, built on `extract_tactics` and
`build_technique_dict`), and renders the matrix into a spreadsheet
(`create_excel_from_matrix`).

Modelling decisions:
* Python `dict`s are insertion-ordered; they are embedded as association
  lists `List (String × α)` with `alookup` (first match), `ainsert`
  (replace in place, else append) and `amodify` (update first match) —
  exactly the observable behaviour of CPython dict assignment, lookup and
  in-place value mutation.
* A record (`obj`) carries only the fields the script reads; `obj.get(f, d)`
  on an absent field is identified with the default value `d`, which is
  faithful because the script never distinguishes an absent field from a
  field holding the default.
* The only fallible operation in the builder is the direct indexing
  `techniques[sub_id]` (line 145); it is embedded in `Option`, `none`
  standing for a Python `KeyError`.
* The renderer is embedded as the ordered list of `.value` cell writes
  `(row, column, text)` it performs, plus the persistence outcome: `none`
  models a `KeyError` on `tactics[tactic_shortname]`, `some (cells, true)`
  models a saved workbook (file I/O assumed to succeed), and
  `some (cells, false)` models the `return None` taken when no tactic
  contributed rows.  Styling (fonts, fills, borders, merges, widths) writes
  no cell values and is not modelled.
-/

namespace ATTCKForge

/-- One element of an object's `external_references` list; the script reads
`external_id` and `url` with `.get(_, '')`, so absent fields are the empty
string. -/
structure ExtRef where
  external_id : String := ""
  url : String := ""
deriving DecidableEq, Repr

/-- One element of `kill_chain_phases`; the script reads only
`phase.get('phase_name', '')`. -/
structure Phase where
  phase_name : String := ""
deriving DecidableEq, Repr

/-- A record of the dataset's `objects` list, restricted to the fields the
script reads.  `type` is `Option` because `obj.get('type')` defaults to
`None`, which the script compares (unequal) to string literals. -/
structure Obj where
  type : Option String := none
  name : String := ""
  x_mitre_shortname : String := ""
  x_mitre_platforms : List String := []
  kill_chain_phases : List Phase := []
  external_references : List ExtRef := []
deriving DecidableEq, Repr

/-- The decoded dataset: `{"objects": [...]}`. -/
structure Dataset where
  objects : List Obj
deriving DecidableEq, Repr

/-- A value of the `tactics` dict built by `extract_tactics`. -/
structure Tactic where
  name : String
  id : String
  url : String
deriving DecidableEq, Repr

/-- A value of the `techniques` dict built by `build_technique_dict`. -/
structure Tech where
  id : String
  name : String
  platforms : List String
  tactics : List Phase
  url : String
  is_subtechnique : Bool
  parent_technique : Option String
  subtechniques : List String
deriving DecidableEq, Repr

/-- A sub-technique entry of a matrix technique-entry
(`{'name': ..., 'reference': ...}`). -/
structure SubEntry where
  name : String
  reference : String
deriving DecidableEq, Repr

/-- A technique-entry appended to a tactic's bucket of the matrix. -/
structure Entry where
  technique : String
  reference : String
  subtechniques : List SubEntry
deriving DecidableEq, Repr

/-- Python dict lookup `d[k]` / `k in d` on an insertion-ordered
association list: the first binding of the key, if any. -/
def alookup {α : Type} : List (String × α) → String → Option α
  | [], _ => none
  | (k, v) :: rest, key => if k = key then some v else alookup rest key

/-- Python dict assignment `d[k] = v`: replace the value at the key's
existing position, else append a new binding at the end. -/
def ainsert {α : Type} : List (String × α) → String → α → List (String × α)
  | [], k, v => [(k, v)]
  | (k', v') :: rest, k, v =>
      if k' = k then (k', v) :: rest else (k', v') :: ainsert rest k v

/-- In-place mutation of the value stored at a key (Python
`d[k].append(...)` and the like): update the first binding of the key. -/
def amodify {α : Type} : List (String × α) → String → (α → α) → List (String × α)
  | [], _, _ => []
  | (k', v') :: rest, k, f =>
      if k' = k then (k', f v') :: rest else (k', v') :: amodify rest k f

/-- The tactic value built at line 78-82: name, plus first external
reference's id and url when the list is nonempty, else empty strings. -/
def tacticOfObj (obj : Obj) : Tactic :=
  { name := obj.name
  , id := match obj.external_references with | [] => "" | r :: _ => r.external_id
  , url := match obj.external_references with | [] => "" | r :: _ => r.url }

/-- The loop body of `extract_tactics` over `data['objects']`. -/
def extractTacticsFold : List Obj → List (String × Tactic) → List (String × Tactic)
  | [], acc => acc
  | obj :: rest, acc =>
      extractTacticsFold rest
        (if obj.type = some "x-mitre-tactic" then
           if obj.x_mitre_shortname = "" then acc
           else ainsert acc obj.x_mitre_shortname (tacticOfObj obj)
         else acc)

/-- `extract_tactics(data)`: the dict of `x-mitre-tactic` records keyed by
`x_mitre_shortname`, records with an empty short name skipped. -/
def extract_tactics (data : Dataset) : List (String × Tactic) :=
  extractTacticsFold data.objects []

/-- `'.' in technique_id`, computed over the id's characters. -/
def hasDot (s : String) : Bool := s.data.contains '.'

/-- `technique_id.split('.')[0]`: the prefix before the first dot. -/
def idStem (s : String) : String := String.mk (s.data.takeWhile (fun c => !(c == '.')))

/-- The technique value built at lines 97-106 from an `attack-pattern`
record, its id, and its first external reference. -/
def techOfObj (tid : String) (obj : Obj) (ref : ExtRef) : Tech :=
  { id := tid
  , name := obj.name
  , platforms := obj.x_mitre_platforms
  , tactics := obj.kill_chain_phases
  , url := ref.url
  , is_subtechnique := hasDot tid
  , parent_technique := if hasDot tid then some (idStem tid) else none
  , subtechniques := [] }

/-- The first loop of `build_technique_dict` (lines 88-106): scan the
objects, keying `attack-pattern` records by their first external id;
records with no external references or an empty external id are skipped. -/
def techScan : List Obj → List (String × Tech) → List (String × Tech)
  | [], acc => acc
  | obj :: rest, acc =>
      techScan rest
        (if obj.type = some "attack-pattern" then
           match obj.external_references with
           | [] => acc
           | ref :: _ =>
               if ref.external_id = "" then acc
               else ainsert acc ref.external_id (techOfObj ref.external_id obj ref)
         else acc)

/-- `parent['subtechniques'].append(tech_id)`. -/
def appendSub (tid : String) (t : Tech) : Tech :=
  { t with subtechniques := t.subtechniques ++ [tid] }

/-- One iteration of the linking loop (lines 109-112): when the record is a
sub-technique and its parent id is a key of the dict, append the
sub-technique's id to the parent's `subtechniques` list. -/
def linkStep (acc : List (String × Tech)) (tid : String) (tech : Tech) :
    List (String × Tech) :=
  match tech.is_subtechnique, tech.parent_technique with
  | true, some p => if (alookup acc p).isSome then amodify acc p (appendSub tid) else acc
  | true, none => acc
  | false, _ => acc

/-- The linking loop of `build_technique_dict` over the snapshot
`list(techniques.items())`; only `subtechniques` lists are mutated, so the
snapshot's pairs agree with the live dict on every field the loop reads. -/
def linkSubtechniques : List (String × Tech) → List (String × Tech) → List (String × Tech)
  | [], acc => acc
  | (tid, tech) :: rest, acc => linkSubtechniques rest (linkStep acc tid tech)

/-- `build_technique_dict(data)`: scan then link. -/
def build_technique_dict (data : Dataset) : List (String × Tech) :=
  linkSubtechniques (techScan data.objects []) (techScan data.objects [])

/-- The `valid_subtechniques` loop (lines 143-149): filter the parent's
`subtechniques` ids to those whose record lists the platform, projecting
name and url; `none` models the `KeyError` of `techniques[sub_id]` when an
id is not a key. -/
def validSubs (techniques : List (String × Tech)) (platform : String) :
    List String → Option (List SubEntry)
  | [] => some []
  | sub_id :: rest =>
      match alookup techniques sub_id with
      | none => none
      | some st =>
          match validSubs techniques platform rest with
          | none => none
          | some l =>
              some (if platform ∈ st.platforms then
                      { name := st.name, reference := st.url } :: l
                    else l)

/-- The inner loop of `build_matrix_for_platform` (lines 134-155) over one
technique's `kill_chain_phases`: skip empty or unknown phase names, create
the tactic's bucket on first encounter, and append the technique-entry
with its platform-filtered sub-technique list. -/
def processPhases (techniques : List (String × Tech)) (tactics : List (String × Tactic))
    (platform : String) (tech : Tech) :
    List Phase → List (String × List Entry) → Option (List (String × List Entry))
  | [], matrix => some matrix
  | phase :: rest, matrix =>
      if phase.phase_name = "" ∨ (alookup tactics phase.phase_name) = none then
        processPhases techniques tactics platform tech rest matrix
      else
        match validSubs techniques platform tech.subtechniques with
        | none => none
        | some vs =>
            processPhases techniques tactics platform tech rest
              (amodify
                (if (alookup matrix phase.phase_name).isSome then matrix
                 else ainsert matrix phase.phase_name [])
                phase.phase_name
                (fun l => l ++ [{ technique := tech.name
                                , reference := tech.url
                                , subtechniques := vs }]))

/-- The outer loop of `build_matrix_for_platform` (lines 124-155) over
`techniques.items()`: skip sub-techniques and techniques not listing the
platform, then process the technique's phases. -/
def processTechs (techniques : List (String × Tech)) (tactics : List (String × Tactic))
    (platform : String) :
    List (String × Tech) → List (String × List Entry) → Option (List (String × List Entry))
  | [], matrix => some matrix
  | (_, tech) :: rest, matrix =>
      if tech.is_subtechnique then processTechs techniques tactics platform rest matrix
      else if platform ∈ tech.platforms then
        match processPhases techniques tactics platform tech tech.tactics matrix with
        | none => none
        | some m2 => processTechs techniques tactics platform rest m2
      else processTechs techniques tactics platform rest matrix

/-- `build_matrix_for_platform(data, platform)`: returns the matrix (an
insertion-ordered dict from tactic short name to its bucket of
technique-entries) together with the tactics dict; `none` models a
`KeyError` escaping the function. -/
def build_matrix_for_platform (data : Dataset) (platform : String) :
    Option (List (String × List Entry) × List (String × Tactic)) :=
  match processTechs (build_technique_dict data) (extract_tactics data) platform
      (build_technique_dict data) [] with
  | none => none
  | some m => some (m, extract_tactics data)

/-- A `.value` cell write of the renderer: (row, column, text). -/
abbrev Cell := Nat × Nat × String

/-- Python `str.title()` over the characters: upper-case a letter that does
not follow a letter, lower-case a letter that does. -/
def pyTitleAux : List Char → Bool → List Char
  | [], _ => []
  | c :: rest, prevAlpha =>
      (if c.isAlpha then (if prevAlpha then c.toLower else c.toUpper) else c)
        :: pyTitleAux rest c.isAlpha

/-- Python `str.title()`. -/
def pyTitle (s : String) : String := String.mk (pyTitleAux s.data false)

/-- The title cell's text (line 175). -/
def titleText (matrix_type platform : String) : String :=
  "MITRE ATT&CK " ++ pyTitle matrix_type ++ " Matrix for " ++ platform

/-- The explanatory text written when no tactic contributed rows (line 244). -/
def noContentMsg : String :=
  "No techniques found for this platform in the framework."

/-- Rows for the second and later sub-techniques of an entry (lines
230-233): columns 1-2 left blank, columns 3-4 filled, one row each.
Returns the writes and the row counter after the loop. -/
def renderSubRows (row : Nat) : List SubEntry → List Cell × Nat
  | [] => ([], row)
  | s :: rest =>
      let t := renderSubRows (row + 1) rest
      ([(row, 3, s.name), (row, 4, s.reference)] ++ t.1, t.2)

/-- Rows for one technique-entry (lines 215-233): a single two-column row
when it has no sub-techniques, else a four-column first row followed by one
row per remaining sub-technique. -/
def renderEntry (row : Nat) (e : Entry) : List Cell × Nat :=
  match e.subtechniques with
  | [] => ([(row, 1, e.technique), (row, 2, e.reference)], row + 1)
  | s0 :: rest =>
      let t := renderSubRows (row + 1) rest
      ([(row, 1, e.technique), (row, 2, e.reference),
        (row, 3, s0.name), (row, 4, s0.reference)] ++ t.1, t.2)

/-- The data rows of one tactic's bucket, in bucket order. -/
def renderEntries (row : Nat) : List Entry → List Cell × Nat
  | [] => ([], row)
  | e :: rest =>
      let t := renderEntry row e
      let t2 := renderEntries t.2 rest
      (t.1 ++ t2.1, t2.2)

/-- The column-header row writes (lines 202-208). -/
def headerCells (row : Nat) : List Cell :=
  [(row, 1, "Technique"), (row, 2, "Reference"),
   (row, 3, "Subtechnique"), (row, 4, "Subtechnique Reference")]

/-- The per-tactic loop of `create_excel_from_matrix` (lines 185-241) over
the matrix's insertion order, starting from a row counter and the
`tactics_processed` flag: a bucket that is empty is skipped; otherwise the
tactic's display name is looked up (`none` models the `KeyError` when the
short name is not a key of `tactics`), a section-header row and a
column-header row are written, then the data rows, then the counter skips
two blank rows.  Returns the writes, the final row counter, and the final
flag. -/
def renderTactics (tactics : List (String × Tactic)) :
    List (String × List Entry) → Nat → Bool → Option (List Cell × Nat × Bool)
  | [], row, processed => some ([], row, processed)
  | (sn, techs) :: rest, row, processed =>
      if techs = [] then renderTactics tactics rest row processed
      else
        match alookup tactics sn with
        | none => none
        | some tac =>
            let t := renderEntries (row + 2) techs
            match renderTactics tactics rest (t.2 + 2) true with
            | none => none
            | some r =>
                some ((row, 1, tac.name) :: headerCells (row + 1) ++ t.1 ++ r.1,
                      r.2.1, r.2.2)

/-- `create_excel_from_matrix(matrix, tactics, platform, matrix_type)`: the
title is written at row 1 and the counter starts at 3 (title plus one blank
row); after the per-tactic loop, if no tactic contributed rows the
explanatory cell is written at the current row and `None` is returned
(`(cells, false)`), otherwise the workbook is saved and the file name
returned (`(cells, true)`; file I/O is assumed to succeed). -/
def create_excel_from_matrix (matrix : List (String × List Entry))
    (tactics : List (String × Tactic)) (platform matrix_type : String) :
    Option (List Cell × Bool) :=
  match renderTactics tactics matrix 3 false with
  | none => none
  | some (cs, row, processed) =>
      if processed then
        some ((1, 1, titleText matrix_type platform) :: cs, true)
      else
        some ((1, 1, titleText matrix_type platform) :: cs ++ [(row, 1, noContentMsg)],
              false)

/-! ### Auxiliary definitions for the verification -/

/-- The keys of an association list, in order. -/
def akeys {α : Type} (l : List (String × α)) : List String := l.map Prod.fst

/-- A technique record with its derived sub-technique index erased; the
linking pass changes nothing else. -/
def stripSubs (t : Tech) : Tech := { t with subtechniques := [] }

/-- A dataset record for an `x-mitre-tactic` object, for concrete tests. -/
def tacObj (sn nm : String) : Obj :=
  { type := some "x-mitre-tactic", name := nm, x_mitre_shortname := sn }

/-- A dataset record for an `attack-pattern` object, for concrete tests. -/
def techObj (tid nm : String) (plats : List String) (phases : List String) : Obj :=
  { type := some "attack-pattern", name := nm, x_mitre_platforms := plats
  , kill_chain_phases := phases.map (fun p => { phase_name := p })
  , external_references := [{ external_id := tid, url := "https://x/" ++ tid }] }

/-- A concrete dataset exercising tactics, sub-technique linking, platform
filtering, multi-tactic replication and an orphan sub-technique. -/
def Dex : Dataset :=
  { objects :=
      [ tacObj "execution" "Execution"
      , tacObj "persistence" "Persistence"
      , techObj "T1" "Tech One" ["Windows"] ["execution"]
      , techObj "T1.001" "Sub One" ["Windows"] []
      , techObj "T1.002" "Sub Two" ["Linux"] []
      , techObj "T2" "Tech Two" ["Windows"] ["execution", "persistence"]
      , techObj "T9.001" "Orphan Sub" ["Windows"] [] ] }

/-- Provenance of one matrix technique-entry: it was built from a
top-level technique record of the dict that lists the platform, and each of
its sub-technique entries from a linked sub-technique record that
independently lists the platform. -/
def entryProv (T : List (String × Tech)) (platform : String) (e : Entry) : Prop :=
  ∃ tech : Tech, (∃ tid, alookup T tid = some tech) ∧
    tech.is_subtechnique = false ∧ platform ∈ tech.platforms ∧
    e.technique = tech.name ∧ e.reference = tech.url ∧
    ∀ s ∈ e.subtechniques, ∃ st : Tech,
      (∃ sid, sid ∈ tech.subtechniques ∧ alookup T sid = some st) ∧
      platform ∈ st.platforms ∧ s.name = st.name ∧ s.reference = st.url

/-- Every technique-entry of every tactic bucket has entry provenance. -/
def matrixProv (T : List (String × Tech)) (platform : String)
    (m : List (String × List Entry)) : Prop :=
  ∀ pr ∈ m, ∀ e ∈ pr.2, entryProv T platform e

/-- Every sub-technique entry anywhere in the matrix sits inside a
technique-entry whose source technique record itself lists the platform:
the parent's platform membership gates all of its sub-technique entries. -/
def subGateProv (T : List (String × Tech)) (platform : String)
    (m : List (String × List Entry)) : Prop :=
  ∀ pr ∈ m, ∀ e ∈ pr.2, ∀ s ∈ e.subtechniques, ∃ tech : Tech,
    (∃ tid, alookup T tid = some tech) ∧ platform ∈ tech.platforms ∧
    e.technique = tech.name ∧ e.reference = tech.url ∧
    ∃ sid st, sid ∈ tech.subtechniques ∧ alookup T sid = some st ∧
      s.name = st.name ∧ s.reference = st.url ∧ platform ∈ st.platforms

/-- The matrix `build_matrix_for_platform Dex "Windows"` returns, written
out. -/
def MexW : List (String × List Entry) :=
  [ ("execution",
      [ { technique := "Tech One", reference := "https://x/T1"
        , subtechniques := [{ name := "Sub One", reference := "https://x/T1.001" }] }
      , { technique := "Tech Two", reference := "https://x/T2", subtechniques := [] } ])
  , ("persistence",
      [ { technique := "Tech Two", reference := "https://x/T2", subtechniques := [] } ]) ]

/-- The tactics dict `build_matrix_for_platform Dex "Windows"` returns,
written out. -/
def TexW : List (String × Tactic) :=
  [ ("execution", { name := "Execution", id := "", url := "" })
  , ("persistence", { name := "Persistence", id := "", url := "" }) ]

/-- A parametric dataset: one tactic, one top-level technique on platform
`P` with sub-techniques `T1.001` (platforms `[P]`) and `T1.002`
(platforms `[Q]`). -/
def D5 (P Q : String) : Dataset :=
  { objects :=
      [ tacObj "execution" "Execution"
      , techObj "T1" "Tech One" [P] ["execution"]
      , techObj "T1.001" "Sub One" [P] []
      , techObj "T1.002" "Sub Two" [Q] [] ] }

/-- A concrete matrix for the renderer: the first tactic's bucket holds one
technique-entry with no sub-techniques and one with two sub-techniques; a
second tactic shows where the next block starts. -/
def M4 : List (String × List Entry) :=
  [ ("execution",
      [ { technique := "A", reference := "ra", subtechniques := [] }
      , { technique := "B", reference := "rb",
          subtechniques := [ { name := "B1", reference := "rb1" }
                           , { name := "B2", reference := "rb2" } ] } ])
  , ("persistence", [ { technique := "C", reference := "rc", subtechniques := [] } ]) ]

/-- The tactics dict accompanying `M4`. -/
def T4 : List (String × Tactic) :=
  [ ("execution", { name := "Execution", id := "TA1", url := "ua" })
  , ("persistence", { name := "Persistence", id := "TA2", url := "up" }) ]

/-- The cell writes `create_excel_from_matrix M4 T4 "Windows" "enterprise"`
performs, written out: title at row 1, section header at row 3, column
headers at row 4, data rows 5-7, rows 8-9 blank, second block from row 10. -/
def C4cells : List Cell :=
  [ (1, 1, "MITRE ATT&CK Enterprise Matrix for Windows")
  , (3, 1, "Execution")
  , (4, 1, "Technique"), (4, 2, "Reference")
  , (4, 3, "Subtechnique"), (4, 4, "Subtechnique Reference")
  , (5, 1, "A"), (5, 2, "ra")
  , (6, 1, "B"), (6, 2, "rb"), (6, 3, "B1"), (6, 4, "rb1")
  , (7, 3, "B2"), (7, 4, "rb2")
  , (10, 1, "Persistence")
  , (11, 1, "Technique"), (11, 2, "Reference")
  , (11, 3, "Subtechnique"), (11, 4, "Subtechnique Reference")
  , (12, 1, "C"), (12, 2, "rc") ]

/-! ### Association-list lemmas -/

theorem alookup_amodify_self {α : Type} (l : List (String × α)) (p : String) (f : α → α) :
    alookup (amodify l p f) p = (alookup l p).map f := by
  induction l with
  | nil => simp [amodify, alookup]
  | cons hd tl ih =>
      obtain ⟨k', v'⟩ := hd
      by_cases hk : k' = p
      · simp [amodify, alookup, hk]
      · simp [amodify, alookup, hk, ih]

theorem alookup_amodify_ne {α : Type} (l : List (String × α)) (p : String) (f : α → α)
    (k : String) (h : k ≠ p) : alookup (amodify l p f) k = alookup l k := by
  induction l with
  | nil => simp [amodify]
  | cons hd tl ih =>
      obtain ⟨k', v'⟩ := hd
      simp only [amodify]
      by_cases hkp : k' = p
      · rw [if_pos hkp]
        have hne : ¬k' = k := fun hc => h (hc ▸ hkp)
        simp only [alookup]
        rw [if_neg hne, if_neg hne]
      · rw [if_neg hkp]
        simp only [alookup]
        by_cases hkk : k' = k
        · rw [if_pos hkk, if_pos hkk]
        · rw [if_neg hkk, if_neg hkk, ih]

theorem isSome_alookup_amodify {α : Type} (l : List (String × α)) (p : String) (f : α → α)
    (k : String) : (alookup (amodify l p f) k).isSome = (alookup l k).isSome := by
  by_cases hk : k = p
  · subst hk
    rw [alookup_amodify_self]
    cases alookup l k <;> rfl
  · rw [alookup_amodify_ne _ _ _ _ hk]

theorem alookup_ainsert {α : Type} (l : List (String × α)) (k : String) (v : α) (key : String) :
    alookup (ainsert l k v) key = if key = k then some v else alookup l key := by
  induction l with
  | nil =>
      simp only [ainsert, alookup]
      by_cases hk : k = key
      · rw [if_pos hk, if_pos hk.symm]
      · rw [if_neg hk, if_neg (fun hc => hk hc.symm)]
  | cons hd tl ih =>
      obtain ⟨k', v'⟩ := hd
      simp only [ainsert]
      by_cases hkk : k' = k
      · rw [if_pos hkk]
        simp only [alookup]
        by_cases hkey : k' = key
        · rw [if_pos hkey, if_pos (hkey ▸ hkk : key = k)]
        · have hkeyk : ¬key = k := fun hc => hkey (hkk.trans hc.symm)
          rw [if_neg hkey, if_neg hkeyk, if_neg hkey]
      · rw [if_neg hkk]
        simp only [alookup]
        by_cases hkey : k' = key
        · have hkeyk : ¬key = k := fun hc => hkk (hkey.trans hc)
          rw [if_pos hkey, if_neg hkeyk, if_pos hkey]
        · rw [if_neg hkey, if_neg hkey, ih]

theorem isSome_alookup_of_mem {α : Type} {l : List (String × α)} {k : String} {v : α}
    (h : (k, v) ∈ l) : (alookup l k).isSome := by
  induction l with
  | nil => simp at h
  | cons hd tl ih =>
      obtain ⟨k', v'⟩ := hd
      rcases List.mem_cons.mp h with heq | hmem
      · obtain ⟨h1, _⟩ := Prod.mk.injEq .. ▸ heq
        simp [alookup, h1.symm]
      · by_cases hk : k' = k
        · simp [alookup, hk]
        · simp [alookup, hk, ih hmem]

theorem mem_of_mem_ainsert {α : Type} {l : List (String × α)} {k : String} {v : α}
    {pr : String × α} (h : pr ∈ ainsert l k v) : pr ∈ l ∨ pr = (k, v) := by
  induction l with
  | nil => simpa [ainsert] using h
  | cons hd tl ih =>
      obtain ⟨k', v'⟩ := hd
      by_cases hk : k' = k
      · subst hk
        rcases List.mem_cons.mp (by simpa [ainsert] using h) with heq | hmem
        · right
          exact heq
        · left
          exact List.mem_cons_of_mem _ hmem
      · rcases List.mem_cons.mp (by simpa [ainsert, hk] using h) with heq | hmem
        · left
          exact heq ▸ List.mem_cons_self _ _
        · rcases ih hmem with h1 | h2
          · exact Or.inl (List.mem_cons_of_mem _ h1)
          · exact Or.inr h2

theorem mem_of_mem_amodify {α : Type} {l : List (String × α)} {k : String} {f : α → α}
    {pr : String × α} (h : pr ∈ amodify l k f) :
    pr ∈ l ∨ ∃ v, (k, v) ∈ l ∧ pr = (k, f v) := by
  induction l with
  | nil => simp [amodify] at h
  | cons hd tl ih =>
      obtain ⟨k', v'⟩ := hd
      by_cases hk : k' = k
      · subst hk
        rcases List.mem_cons.mp (by simpa [amodify] using h) with heq | hmem
        · exact Or.inr ⟨v', List.mem_cons_self _ _, heq⟩
        · exact Or.inl (List.mem_cons_of_mem _ hmem)
      · rcases List.mem_cons.mp (by simpa [amodify, hk] using h) with heq | hmem
        · exact Or.inl (heq ▸ List.mem_cons_self _ _)
        · rcases ih hmem with h1 | ⟨v, hv, hpr⟩
          · exact Or.inl (List.mem_cons_of_mem _ h1)
          · exact Or.inr ⟨v, List.mem_cons_of_mem _ hv, hpr⟩

theorem mem_akeys_iff {α : Type} {l : List (String × α)} {a : String} :
    a ∈ akeys l ↔ ∃ v, (a, v) ∈ l := by
  constructor
  · intro h
    rcases List.mem_map.mp h with ⟨⟨k, v⟩, hmem, hfst⟩
    have hk : k = a := hfst
    subst hk
    exact ⟨v, hmem⟩
  · rintro ⟨v, hmem⟩
    exact List.mem_map.mpr ⟨(a, v), hmem, rfl⟩

theorem mem_akeys_ainsert {α : Type} {l : List (String × α)} {k : String} {v : α} {a : String}
    (h : a ∈ akeys (ainsert l k v)) : a ∈ akeys l ∨ a = k := by
  rcases mem_akeys_iff.mp h with ⟨w, hmem⟩
  rcases mem_of_mem_ainsert hmem with h1 | h2
  · exact Or.inl (mem_akeys_iff.mpr ⟨w, h1⟩)
  · exact Or.inr (congrArg Prod.fst h2)

theorem anodup_ainsert {α : Type} {l : List (String × α)} (k : String) (v : α)
    (h : (akeys l).Nodup) : (akeys (ainsert l k v)).Nodup := by
  induction l with
  | nil => simp [ainsert, akeys]
  | cons hd tl ih =>
      obtain ⟨k', v'⟩ := hd
      by_cases hk : k' = k
      · subst hk
        simpa [ainsert, akeys] using h
      · simp only [akeys, List.map_cons, List.nodup_cons] at h
        have h2 := ih h.2
        have h1 : k' ∉ akeys (ainsert tl k v) := by
          intro hc
          rcases mem_akeys_ainsert hc with hmem | heq
          · exact h.1 (by simpa [akeys] using hmem)
          · exact hk heq
        simp only [ainsert, hk, if_false, akeys, List.map_cons, List.nodup_cons]
        exact ⟨by simpa [akeys] using h1, by simpa [akeys] using h2⟩

theorem alookup_eq_of_mem_nodup {α : Type} {l : List (String × α)} {k : String} {v : α}
    (hnd : (akeys l).Nodup) (h : (k, v) ∈ l) : alookup l k = some v := by
  induction l with
  | nil => simp at h
  | cons hd tl ih =>
      obtain ⟨k', v'⟩ := hd
      simp only [akeys, List.map_cons, List.nodup_cons] at hnd
      rcases List.mem_cons.mp h with heq | hmem
      · obtain ⟨h1, h2⟩ := Prod.mk.injEq .. ▸ heq
        simp [alookup, h1.symm, h2]
      · by_cases hk : k' = k
        · subst hk
          exact absurd (by simpa [akeys] using List.mem_map_of_mem Prod.fst hmem) hnd.1
        · simp [alookup, hk, ih hnd.2 hmem]

theorem akeys_amodify {α : Type} (l : List (String × α)) (p : String) (f : α → α) :
    akeys (amodify l p f) = akeys l := by
  induction l with
  | nil => rfl
  | cons hd tl ih =>
      obtain ⟨k', v'⟩ := hd
      by_cases hk : k' = p
      · simp [amodify, akeys, hk]
      · simp [amodify, akeys, hk]
        exact ih

/-! ### Invariants of `build_technique_dict` -/

theorem stripSubs_appendSub (tid : String) (t : Tech) :
    stripSubs (appendSub tid t) = stripSubs t := rfl

theorem alookup_linkStep_strip (acc : List (String × Tech)) (tid : String) (tech : Tech)
    (k : String) :
    (alookup (linkStep acc tid tech) k).map stripSubs = (alookup acc k).map stripSubs := by
  cases hsub : tech.is_subtechnique with
  | false => simp only [linkStep, hsub]
  | true =>
      cases hpt : tech.parent_technique with
      | none => simp only [linkStep, hsub, hpt]
      | some p =>
          simp only [linkStep, hsub, hpt]
          by_cases hp : (alookup acc p).isSome
          · rw [if_pos hp]
            by_cases hk : k = p
            · subst hk
              rw [alookup_amodify_self]
              cases alookup acc k <;> rfl
            · rw [alookup_amodify_ne _ _ _ _ hk]
          · rw [if_neg hp]

theorem isSome_alookup_linkStep (acc : List (String × Tech)) (tid : String) (tech : Tech)
    (k : String) :
    (alookup (linkStep acc tid tech) k).isSome = (alookup acc k).isSome := by
  have h := alookup_linkStep_strip acc tid tech k
  cases hx : alookup (linkStep acc tid tech) k <;> cases hy : alookup acc k <;>
    rw [hx, hy] at h <;> simp_all

theorem alookup_link_strip (ps : List (String × Tech)) (acc : List (String × Tech))
    (k : String) :
    (alookup (linkSubtechniques ps acc) k).map stripSubs = (alookup acc k).map stripSubs := by
  induction ps generalizing acc with
  | nil => rfl
  | cons hd rest ih =>
      obtain ⟨tid, tech⟩ := hd
      rw [linkSubtechniques, ih, alookup_linkStep_strip]

theorem isSome_alookup_link (ps : List (String × Tech)) (acc : List (String × Tech))
    (k : String) :
    (alookup (linkSubtechniques ps acc) k).isSome = (alookup acc k).isSome := by
  induction ps generalizing acc with
  | nil => rfl
  | cons hd rest ih =>
      obtain ⟨tid, tech⟩ := hd
      rw [linkSubtechniques, ih, isSome_alookup_linkStep]

theorem akeys_linkStep (acc : List (String × Tech)) (tid : String) (tech : Tech) :
    akeys (linkStep acc tid tech) = akeys acc := by
  cases hsub : tech.is_subtechnique with
  | false => simp only [linkStep, hsub]
  | true =>
      cases hpt : tech.parent_technique with
      | none => simp only [linkStep, hsub, hpt]
      | some p =>
          simp only [linkStep, hsub, hpt]
          by_cases hp : (alookup acc p).isSome
          · rw [if_pos hp, akeys_amodify]
          · rw [if_neg hp]

theorem akeys_link (ps : List (String × Tech)) (acc : List (String × Tech)) :
    akeys (linkSubtechniques ps acc) = akeys acc := by
  induction ps generalizing acc with
  | nil => rfl
  | cons hd rest ih =>
      obtain ⟨tid, tech⟩ := hd
      rw [linkSubtechniques, ih, akeys_linkStep]

/-- Every value inserted by the scanning pass has an empty sub-technique
index. -/
theorem techScan_subs_nil (objs : List Obj) (acc : List (String × Tech))
    (hacc : ∀ k t, alookup acc k = some t → t.subtechniques = []) :
    ∀ k t, alookup (techScan objs acc) k = some t → t.subtechniques = [] := by
  induction objs generalizing acc with
  | nil => exact hacc
  | cons obj rest ih =>
      rw [techScan]
      apply ih
      intro k t hkt
      split at hkt
      · split at hkt
        · exact hacc k t hkt
        · split at hkt
          · exact hacc k t hkt
          · rw [alookup_ainsert] at hkt
            split at hkt
            · cases hkt
              rfl
            · exact hacc k t hkt
      · exact hacc k t hkt

/-- The scanning pass keeps the key list duplicate-free. -/
theorem anodup_techScan (objs : List Obj) (acc : List (String × Tech))
    (hacc : (akeys acc).Nodup) : (akeys (techScan objs acc)).Nodup := by
  induction objs generalizing acc with
  | nil => exact hacc
  | cons obj rest ih =>
      rw [techScan]
      apply ih
      split
      · split
        · exact hacc
        · split
          · exact hacc
          · exact anodup_ainsert _ _ hacc
      · exact hacc

/-- Provenance of the sub-technique index built by the linking loop: an id
found in some record's `subtechniques` either was already there in the
starting dict, or is the id of a pair of the iterated snapshot that is a
sub-technique whose parent is exactly the key it was filed under, a key
present in the starting dict. -/
theorem link_subs_sound (ps : List (String × Tech)) (acc : List (String × Tech))
    (k : String) (t : Tech) (s : String)
    (hlk : alookup (linkSubtechniques ps acc) k = some t) (hs : s ∈ t.subtechniques) :
    (∃ t₀, alookup acc k = some t₀ ∧ s ∈ t₀.subtechniques) ∨
    (∃ tech, (s, tech) ∈ ps ∧ tech.is_subtechnique = true ∧
       tech.parent_technique = some k ∧ (alookup acc k).isSome) := by
  induction ps generalizing acc with
  | nil =>
      rw [linkSubtechniques] at hlk
      exact Or.inl ⟨t, hlk, hs⟩
  | cons hd rest ih =>
      obtain ⟨tid, tech⟩ := hd
      rw [linkSubtechniques] at hlk
      rcases ih (linkStep acc tid tech) hlk with ⟨t₀, ht₀, hst₀⟩ | ⟨tech', hmem, hsub, hpar, hps⟩
      · cases hsub : tech.is_subtechnique with
        | false =>
            simp only [linkStep, hsub] at ht₀
            exact Or.inl ⟨t₀, ht₀, hst₀⟩
        | true =>
            cases hpt : tech.parent_technique with
            | none =>
                simp only [linkStep, hsub, hpt] at ht₀
                exact Or.inl ⟨t₀, ht₀, hst₀⟩
            | some p =>
                simp only [linkStep, hsub, hpt] at ht₀
                by_cases hp : (alookup acc p).isSome
                · rw [if_pos hp] at ht₀
                  by_cases hk : k = p
                  · subst hk
                    rw [alookup_amodify_self] at ht₀
                    cases hacc : alookup acc k with
                    | none =>
                        rw [hacc] at ht₀
                        cases ht₀
                    | some t₁ =>
                        rw [hacc] at ht₀
                        cases ht₀
                        have hor : s ∈ t₁.subtechniques ∨ s = tid := by
                          simpa [appendSub] using hst₀
                        rcases hor with h1 | h2
                        · exact Or.inl ⟨t₁, rfl, h1⟩
                        · subst h2
                          refine Or.inr ⟨tech, List.mem_cons_self _ _, hsub, hpt, ?_⟩
                          rw [← hacc]
                          exact hp
                  · rw [alookup_amodify_ne _ _ _ _ hk] at ht₀
                    exact Or.inl ⟨t₀, ht₀, hst₀⟩
                · rw [if_neg hp] at ht₀
                  exact Or.inl ⟨t₀, ht₀, hst₀⟩
      · refine Or.inr ⟨tech', List.mem_cons_of_mem _ hmem, hsub, hpar, ?_⟩
        rw [isSome_alookup_linkStep] at hps
        exact hps

/-- The keys of `build_technique_dict` are duplicate-free. -/
theorem build_dict_nodup (data : Dataset) :
    (akeys (build_technique_dict data)).Nodup := by
  rw [build_technique_dict, akeys_link]
  exact anodup_techScan _ _ List.nodup_nil

/-- Every pair of the `techniques` dict is what lookup of its key returns. -/
theorem build_dict_pairs_lookup (data : Dataset) :
    ∀ pr ∈ build_technique_dict data,
      alookup (build_technique_dict data) pr.1 = some pr.2 := by
  intro pr hpr
  obtain ⟨k, v⟩ := pr
  exact alookup_eq_of_mem_nodup (build_dict_nodup data) hpr

/-- Every id stored in any record's `subtechniques` list is a key of the
returned dict. -/
theorem build_dict_sub_isSome (data : Dataset) (k : String) (t : Tech) (s : String)
    (hkt : alookup (build_technique_dict data) k = some t) (hs : s ∈ t.subtechniques) :
    (alookup (build_technique_dict data) s).isSome = true := by
  rcases link_subs_sound _ _ k t s hkt hs with ⟨t₀, ht₀, hst₀⟩ | ⟨tech, hmem, _, _, _⟩
  · rw [techScan_subs_nil data.objects [] (fun k t h => by simp [alookup] at h) k t₀ ht₀] at hst₀
    cases hst₀
  · rw [build_technique_dict, isSome_alookup_link]
    exact isSome_alookup_of_mem hmem

/-! ### Totality of the matrix builder -/

theorem validSubs_isSome (techniques : List (String × Tech)) (platform : String)
    (subs : List String) (h : ∀ s ∈ subs, (alookup techniques s).isSome = true) :
    (validSubs techniques platform subs).isSome = true := by
  induction subs with
  | nil => rfl
  | cons sub rest ih =>
      have h1 := h sub (List.mem_cons_self _ _)
      cases hl : alookup techniques sub with
      | none => rw [hl] at h1; cases h1
      | some st =>
          have h2 := ih (fun s hs => h s (List.mem_cons_of_mem _ hs))
          cases hv : validSubs techniques platform rest with
          | none => rw [hv] at h2; cases h2
          | some l => simp only [validSubs, hl, hv, Option.isSome_some]

theorem processPhases_isSome (techniques : List (String × Tech))
    (tactics : List (String × Tactic)) (platform : String) (tech : Tech)
    (hsubs : (validSubs techniques platform tech.subtechniques).isSome = true) :
    ∀ (phases : List Phase) (matrix : List (String × List Entry)),
      (processPhases techniques tactics platform tech phases matrix).isSome = true := by
  intro phases
  induction phases with
  | nil => intro matrix; rfl
  | cons ph rest ih =>
      intro matrix
      simp only [processPhases]
      by_cases hc : ph.phase_name = "" ∨ alookup tactics ph.phase_name = none
      · rw [if_pos hc]
        exact ih matrix
      · rw [if_neg hc]
        cases hv : validSubs techniques platform tech.subtechniques with
        | none => rw [hv] at hsubs; cases hsubs
        | some vs =>
            simp only [hv]
            exact ih _

theorem processTechs_isSome (techniques : List (String × Tech))
    (tactics : List (String × Tactic)) (platform : String) :
    ∀ (pairs : List (String × Tech)),
      (∀ pr ∈ pairs, ∀ s ∈ pr.2.subtechniques, (alookup techniques s).isSome = true) →
      ∀ (matrix : List (String × List Entry)),
        (processTechs techniques tactics platform pairs matrix).isSome = true := by
  intro pairs
  induction pairs with
  | nil => intro _ matrix; rfl
  | cons pr rest ih =>
      intro h matrix
      obtain ⟨tid, tech⟩ := pr
      simp only [processTechs]
      by_cases hsub : tech.is_subtechnique
      · rw [if_pos hsub]
        exact ih (fun q hq => h q (List.mem_cons_of_mem _ hq)) matrix
      · rw [if_neg hsub]
        by_cases hpl : platform ∈ tech.platforms
        · rw [if_pos hpl]
          have hv : (validSubs techniques platform tech.subtechniques).isSome = true :=
            validSubs_isSome _ _ _ (fun s hs => h (tid, tech) (List.mem_cons_self _ _) s hs)
          have hp := processPhases_isSome techniques tactics platform tech hv
            tech.tactics matrix
          cases hpp : processPhases techniques tactics platform tech tech.tactics matrix with
          | none => rw [hpp] at hp; cases hp
          | some m2 =>
              simp only [hpp]
              exact ih (fun q hq => h q (List.mem_cons_of_mem _ hq)) m2
        · rw [if_neg hpl]
          exact ih (fun q hq => h q (List.mem_cons_of_mem _ hq)) matrix

/-! ### Claim theorems: technique dictionary and builder totality -/

/-- C7: for every dataset containing a sub-technique record whose parent id
(the prefix before ".") is not a key of the technique collection,
`build_technique_dict` completes (it is a total function of this embedding)
and never links that sub-technique: its id appears in no record's
`subtechniques` list. -/
theorem orphan_subtechnique_never_linked (data : Dataset) (sub_id p : String) (st : Tech)
    (hst : alookup (build_technique_dict data) sub_id = some st)
    (hpar : st.parent_technique = some p)
    (hmiss : alookup (build_technique_dict data) p = none)
    (k : String) (t : Tech) (hkt : alookup (build_technique_dict data) k = some t) :
    sub_id ∉ t.subtechniques := by
  intro hmem
  rcases link_subs_sound _ _ k t sub_id hkt hmem with
    ⟨t₀, ht₀, hst₀⟩ | ⟨tech, hmem2, hsub2, hpar2, hps2⟩
  · rw [techScan_subs_nil data.objects [] (fun a b h => by simp [alookup] at h) k t₀ ht₀]
      at hst₀
    cases hst₀
  · have hbase : alookup (techScan data.objects []) sub_id = some tech :=
      alookup_eq_of_mem_nodup (anodup_techScan _ _ List.nodup_nil) hmem2
    have hstrip := alookup_link_strip (techScan data.objects []) (techScan data.objects [])
      sub_id
    rw [build_technique_dict] at hst
    rw [hst, hbase] at hstrip
    have hss : stripSubs st = stripSubs tech := by
      simpa using hstrip
    have hpp := congrArg Tech.parent_technique hss
    simp only [stripSubs] at hpp
    rw [hpar, hpar2] at hpp
    have hpk : p = k := Option.some.injEq .. ▸ hpp
    subst hpk
    rw [build_technique_dict] at hmiss
    rw [← isSome_alookup_link (techScan data.objects []) (techScan data.objects []) p]
      at hps2
    rw [hmiss] at hps2
    cases hps2

/-- Witness for C7 at a concrete dataset: `Dex` contains the orphan
sub-technique record `T9.001` (its parent `T9` is not a key); the linked
dictionary's `T1` record does not list it. -/
theorem orphan_subtechnique_never_linked_witness :
    "T9.001" ∉ (Tech.mk "T1" "Tech One" ["Windows"] [{ phase_name := "execution" }]
      "https://x/T1" false none ["T1.001", "T1.002"]).subtechniques :=
  orphan_subtechnique_never_linked Dex "T9.001" "T9" _ rfl rfl rfl "T1" _ rfl

/-- C8: for every dataset whose top-level `objects` field is a list of
records — fields may be absent (their defaults) and types unknown —
`build_matrix_for_platform` raises no error for any platform string: the
embedded computation, whose `none` models a Python exception, always
returns a result. -/
theorem build_matrix_never_raises (data : Dataset) (platform : String) :
    (build_matrix_for_platform data platform).isSome = true := by
  rw [build_matrix_for_platform]
  have h := processTechs_isSome (build_technique_dict data) (extract_tactics data) platform
    (build_technique_dict data)
    (fun pr hpr s hs =>
      build_dict_sub_isSome data pr.1 pr.2 s (build_dict_pairs_lookup data pr hpr) hs) []
  cases hp : processTechs (build_technique_dict data) (extract_tactics data) platform
      (build_technique_dict data) [] with
  | none => rw [hp] at h; cases h
  | some m => simp only [hp, Option.isSome_some]

/-- C10: after `build_technique_dict`, every id stored in any record's
`subtechniques` list is a key of the returned mapping, so the lookup
`techniques[sub_id]` performed by `build_matrix_for_platform` is always
defined. -/
theorem subtechnique_lookup_always_defined (data : Dataset) (k : String) (t : Tech)
    (s : String) (hkt : alookup (build_technique_dict data) k = some t)
    (hs : s ∈ t.subtechniques) :
    (alookup (build_technique_dict data) s).isSome = true :=
  build_dict_sub_isSome data k t s hkt hs

/-- Witness for C10 at a concrete dataset: `T1.001` is linked under `T1`
in `Dex` and its lookup is defined. -/
theorem subtechnique_lookup_always_defined_witness :
    (alookup (build_technique_dict Dex) "T1.001").isSome = true :=
  subtechnique_lookup_always_defined Dex "T1" _ "T1.001" rfl (by decide)

/-! ### Provenance of the matrix entries -/

theorem validSubs_sound (T : List (String × Tech)) (platform : String) :
    ∀ (subs : List String) (vs : List SubEntry),
      validSubs T platform subs = some vs →
      ∀ s ∈ vs, ∃ st : Tech,
        (∃ sid, sid ∈ subs ∧ alookup T sid = some st) ∧
        platform ∈ st.platforms ∧ s.name = st.name ∧ s.reference = st.url := by
  intro subs
  induction subs with
  | nil =>
      intro vs h
      cases h
      intro s hs
      cases hs
  | cons sub rest ih =>
      intro vs h
      simp only [validSubs] at h
      cases hl : alookup T sub with
      | none => rw [hl] at h; cases h
      | some st =>
          rw [hl] at h
          cases hv : validSubs T platform rest with
          | none => rw [hv] at h; cases h
          | some l =>
              rw [hv] at h
              cases h
              intro s hs
              by_cases hpl : platform ∈ st.platforms
              · rw [if_pos hpl] at hs
                rcases List.mem_cons.mp hs with heq | hmem
                · subst heq
                  exact ⟨st, ⟨sub, List.mem_cons_self _ _, hl⟩, hpl, rfl, rfl⟩
                · rcases ih l hv s hmem with ⟨st2, ⟨sid, hsid, hlk⟩, h1, h2, h3⟩
                  exact ⟨st2, ⟨sid, List.mem_cons_of_mem _ hsid, hlk⟩, h1, h2, h3⟩
              · rw [if_neg hpl] at hs
                rcases ih l hv s hs with ⟨st2, ⟨sid, hsid, hlk⟩, h1, h2, h3⟩
                exact ⟨st2, ⟨sid, List.mem_cons_of_mem _ hsid, hlk⟩, h1, h2, h3⟩

theorem entryProv_mk (T : List (String × Tech)) (platform tid : String) (tech : Tech)
    (vs : List SubEntry) (hlk : alookup T tid = some tech)
    (hsub : tech.is_subtechnique = false) (hpl : platform ∈ tech.platforms)
    (hvs : validSubs T platform tech.subtechniques = some vs) :
    entryProv T platform
      { technique := tech.name, reference := tech.url, subtechniques := vs } :=
  ⟨tech, ⟨tid, hlk⟩, hsub, hpl, rfl, rfl,
    fun s hs => validSubs_sound T platform tech.subtechniques vs hvs s hs⟩

theorem matrixProv_step (T : List (String × Tech)) (platform : String)
    (m : List (String × List Entry)) (sn : String) (e : Entry)
    (hm : matrixProv T platform m) (he : entryProv T platform e) :
    matrixProv T platform
      (amodify (if (alookup m sn).isSome then m else ainsert m sn []) sn
        (fun l => l ++ [e])) := by
  have hbase : matrixProv T platform (if (alookup m sn).isSome then m else ainsert m sn []) := by
    by_cases hc : (alookup m sn).isSome
    · rw [if_pos hc]
      exact hm
    · rw [if_neg hc]
      intro q hq e0 he0
      rcases mem_of_mem_ainsert hq with h1 | h2
      · exact hm q h1 e0 he0
      · rw [h2] at he0
        cases he0
  intro pr hpr e2 he2
  rcases mem_of_mem_amodify hpr with h1 | ⟨v, hv, hpr2⟩
  · exact hbase pr h1 e2 he2
  · rw [hpr2] at he2
    rcases List.mem_append.mp he2 with h3 | h4
    · exact hbase (sn, v) hv e2 h3
    · rw [List.mem_singleton.mp h4]
      exact he

theorem processPhases_prov (T : List (String × Tech)) (tactics : List (String × Tactic))
    (platform tid : String) (tech : Tech) (hlk : alookup T tid = some tech)
    (hsub : tech.is_subtechnique = false) (hpl : platform ∈ tech.platforms) :
    ∀ (phases : List Phase) (m m2 : List (String × List Entry)),
      processPhases T tactics platform tech phases m = some m2 →
      matrixProv T platform m → matrixProv T platform m2 := by
  intro phases
  induction phases with
  | nil =>
      intro m m2 h hm
      cases h
      exact hm
  | cons ph rest ih =>
      intro m m2 h hm
      simp only [processPhases] at h
      by_cases hc : ph.phase_name = "" ∨ alookup tactics ph.phase_name = none
      · rw [if_pos hc] at h
        exact ih m m2 h hm
      · rw [if_neg hc] at h
        cases hv : validSubs T platform tech.subtechniques with
        | none => rw [hv] at h; cases h
        | some vs =>
            rw [hv] at h
            exact ih _ m2 h
              (matrixProv_step T platform m ph.phase_name _ hm
                (entryProv_mk T platform tid tech vs hlk hsub hpl hv))

theorem processTechs_prov (T : List (String × Tech)) (tactics : List (String × Tactic))
    (platform : String) :
    ∀ (pairs : List (String × Tech)) (m m2 : List (String × List Entry)),
      (∀ pr ∈ pairs, alookup T pr.1 = some pr.2) →
      processTechs T tactics platform pairs m = some m2 →
      matrixProv T platform m → matrixProv T platform m2 := by
  intro pairs
  induction pairs with
  | nil =>
      intro m m2 _ h hm
      cases h
      exact hm
  | cons pr rest ih =>
      intro m m2 hp h hm
      obtain ⟨tid, tech⟩ := pr
      simp only [processTechs] at h
      by_cases hsub : tech.is_subtechnique
      · rw [if_pos hsub] at h
        exact ih m m2 (fun q hq => hp q (List.mem_cons_of_mem _ hq)) h hm
      · rw [if_neg hsub] at h
        by_cases hpl : platform ∈ tech.platforms
        · rw [if_pos hpl] at h
          cases hpp : processPhases T tactics platform tech tech.tactics m with
          | none => rw [hpp] at h; cases h
          | some mmid =>
              rw [hpp] at h
              have hmid := processPhases_prov T tactics platform tid tech
                (hp (tid, tech) (List.mem_cons_self _ _))
                (Bool.eq_false_iff.mpr hsub) hpl tech.tactics m mmid hpp hm
              exact ih mmid m2 (fun q hq => hp q (List.mem_cons_of_mem _ hq)) h hmid
        · rw [if_neg hpl] at h
          exact ih m m2 (fun q hq => hp q (List.mem_cons_of_mem _ hq)) h hm

/-- Every matrix `build_matrix_for_platform` returns has entry provenance
throughout. -/
theorem build_matrix_prov_aux (data : Dataset) (platform : String)
    (m : List (String × List Entry)) (tacs : List (String × Tactic))
    (hb : build_matrix_for_platform data platform = some (m, tacs)) :
    matrixProv (build_technique_dict data) platform m := by
  rw [build_matrix_for_platform] at hb
  cases hp : processTechs (build_technique_dict data) (extract_tactics data) platform
      (build_technique_dict data) [] with
  | none => rw [hp] at hb; cases hb
  | some m0 =>
      rw [hp] at hb
      cases hb
      exact processTechs_prov (build_technique_dict data) (extract_tactics data) platform
        (build_technique_dict data) [] _ (build_dict_pairs_lookup data) hp
        (fun pr hpr => by cases hpr)

/-! ### Claim theorems: platform filtering -/

/-- C1: for every dataset and platform string, every technique-entry placed
under any tactic bucket by `build_matrix_for_platform` comes from a
technique record whose declared platform list contains the platform, and
every nested sub-technique entry from a sub-technique record whose own
platform list independently contains it (`entryProv` spells this out). -/
theorem build_matrix_platform_sound (data : Dataset) (platform : String)
    (m : List (String × List Entry)) (tacs : List (String × Tactic))
    (hb : build_matrix_for_platform data platform = some (m, tacs)) :
    matrixProv (build_technique_dict data) platform m :=
  build_matrix_prov_aux data platform m tacs hb

/-- Witness for C1 at the concrete dataset `Dex` and platform `Windows`. -/
theorem build_matrix_platform_sound_witness :
    matrixProv (build_technique_dict Dex) "Windows" MexW :=
  build_matrix_platform_sound Dex "Windows" MexW TexW rfl

/-- C9: a sub-technique entry appears nowhere in the built matrix unless
the platform list of its parent technique record (the one that produced
the enclosing technique-entry) contains the platform: the parent gates all
of its sub-technique entries (`subGateProv` spells this out). -/
theorem subentry_parent_platform_gated (data : Dataset) (platform : String)
    (m : List (String × List Entry)) (tacs : List (String × Tactic))
    (hb : build_matrix_for_platform data platform = some (m, tacs)) :
    subGateProv (build_technique_dict data) platform m := by
  have hm := build_matrix_prov_aux data platform m tacs hb
  intro pr hpr e he s hs
  rcases hm pr hpr e he with ⟨tech, htid, _, hpl, hname, hurl, hsubs⟩
  rcases hsubs s hs with ⟨st, ⟨sid, hsid, hlk⟩, h1, h2, h3⟩
  exact ⟨tech, htid, hpl, hname, hurl, sid, st, hsid, hlk, h2, h3, h1⟩

/-- Witness for C9 at the concrete dataset `Dex` and platform `Windows`. -/
theorem subentry_parent_platform_gated_witness :
    subGateProv (build_technique_dict Dex) "Windows" MexW :=
  subentry_parent_platform_gated Dex "Windows" MexW TexW rfl

/-! ### Claim theorems: determinism, replication, sub-technique filter -/

/-- C3: `build_matrix_for_platform` is deterministic — two calls on
identical input return structurally identical results (same tactic
insertion order, same technique order per bucket, same sub-technique order
per entry, since the whole structures are equal). -/
theorem build_matrix_deterministic (data : Dataset) (platform : String)
    (m1 : List (String × List Entry)) (t1 : List (String × Tactic))
    (m2 : List (String × List Entry)) (t2 : List (String × Tactic))
    (h1 : build_matrix_for_platform data platform = some (m1, t1))
    (h2 : build_matrix_for_platform data platform = some (m2, t2)) :
    m1 = m2 ∧ t1 = t2 := by
  rw [h1] at h2
  cases h2
  exact ⟨rfl, rfl⟩

/-- Witness for C3 at the concrete dataset `Dex` and platform `Windows`. -/
theorem build_matrix_deterministic_witness : MexW = MexW ∧ TexW = TexW :=
  build_matrix_deterministic Dex "Windows" MexW TexW MexW TexW rfl rfl

/-- C6: a technique declaring kill-chain phases that resolve to two known
tactics and available on the platform is appended as an independent entry
to both buckets — `Tech Two` of `Dex` appears once under `execution` and
once under `persistence`, with no cross-tactic deduplication. -/
theorem technique_replicated_across_tactics :
    build_matrix_for_platform Dex "Windows" = some (MexW, TexW) ∧
    MexW.map (fun pr => (pr.1, pr.2.count
      ({ technique := "Tech Two", reference := "https://x/T2"
       , subtechniques := [] } : Entry))) = [("execution", 1), ("persistence", 1)] :=
  ⟨rfl, rfl⟩

/-- C5: for distinct platform strings `P` and `Q`, building `D5 P Q` for
platform `P` yields one technique-entry whose sub-technique list contains
exactly the entry for the `[P]` sub-technique and nothing for the `[Q]`
one. -/
theorem subtechnique_platform_filter_exact (P Q : String) (h : P ≠ Q) :
    build_matrix_for_platform (D5 P Q) P =
      some ([("execution",
        [{ technique := "Tech One", reference := "https://x/T1"
         , subtechniques := [{ name := "Sub One", reference := "https://x/T1.001" }] }])],
        [("execution", { name := "Execution", id := "", url := "" })]) := by
  have h1 : build_technique_dict (D5 P Q) =
      [ ("T1", { id := "T1", name := "Tech One", platforms := [P]
               , tactics := [{ phase_name := "execution" }], url := "https://x/T1"
               , is_subtechnique := false, parent_technique := none
               , subtechniques := ["T1.001", "T1.002"] })
      , ("T1.001", { id := "T1.001", name := "Sub One", platforms := [P]
                   , tactics := [], url := "https://x/T1.001"
                   , is_subtechnique := true, parent_technique := some "T1"
                   , subtechniques := [] })
      , ("T1.002", { id := "T1.002", name := "Sub Two", platforms := [Q]
                   , tactics := [], url := "https://x/T1.002"
                   , is_subtechnique := true, parent_technique := some "T1"
                   , subtechniques := [] }) ] := rfl
  have h2 : extract_tactics (D5 P Q) =
      [("execution", { name := "Execution", id := "", url := "" })] := rfl
  rw [build_matrix_for_platform, h1, h2]
  simp only [processTechs, processPhases, validSubs, alookup, ainsert, amodify]
  simp [h, List.mem_singleton]

/-- Witness for C5 at the concrete platforms `Windows` and `Linux`. -/
theorem subtechnique_platform_filter_exact_witness :
    build_matrix_for_platform (D5 "Windows" "Linux") "Windows" =
      some ([("execution",
        [{ technique := "Tech One", reference := "https://x/T1"
         , subtechniques := [{ name := "Sub One", reference := "https://x/T1.001" }] }])],
        [("execution", { name := "Execution", id := "", url := "" })]) :=
  subtechnique_platform_filter_exact "Windows" "Linux" (by decide)

/-! ### Claim theorems: the renderer -/

/-- The per-tactic loop writes nothing and leaves the row counter and the
`tactics_processed` flag unchanged when every bucket is empty. -/
theorem renderTactics_all_empty (tactics : List (String × Tactic)) :
    ∀ (m : List (String × List Entry)) (row : Nat) (processed : Bool),
      (∀ pr ∈ m, pr.2 = ([] : List Entry)) →
      renderTactics tactics m row processed = some ([], row, processed) := by
  intro m
  induction m with
  | nil => intro row processed _; rfl
  | cons pr rest ih =>
      intro row processed h
      obtain ⟨sn, techs⟩ := pr
      have hempty : techs = [] := h (sn, techs) (List.mem_cons_self _ _)
      subst hempty
      simp only [renderTactics]
      exact ih row processed (fun q hq => h q (List.mem_cons_of_mem _ hq))

/-- C2: for every matrix input in which no tactic bucket contains a
technique-entry (every bucket absent or empty), the renderer persists
nothing: the only cell writes are the title and one explanatory cell at
row 3, and the persistence outcome is `false` (Python `return None`). -/
theorem renderer_empty_matrix_no_artifact (m : List (String × List Entry))
    (tactics : List (String × Tactic)) (platform matrix_type : String)
    (h : ∀ pr ∈ m, pr.2 = ([] : List Entry)) :
    create_excel_from_matrix m tactics platform matrix_type =
      some ([(1, 1, titleText matrix_type platform), (3, 1, noContentMsg)], false) := by
  have hr := renderTactics_all_empty tactics m 3 false h
  rw [create_excel_from_matrix]
  simp only [hr]
  simp

/-- Witness for C2 at a concrete matrix with one empty bucket. -/
theorem renderer_empty_matrix_no_artifact_witness :
    create_excel_from_matrix [("execution", [])] T4 "Windows" "enterprise" =
      some ([(1, 1, titleText "enterprise" "Windows"), (3, 1, noContentMsg)], false) :=
  renderer_empty_matrix_no_artifact [("execution", [])] T4 "Windows" "enterprise"
    (by decide)

/-- Counterexample to C4 as stated: rendering `M4` (first bucket: one
entry without sub-techniques and one with two) writes the next tactic's
section header at row 10, not row 9, and writes nothing in rows 8 and 9 —
so ten rows minus one, that is nine, not eight, rows lie before the next
block. -/
theorem render_block_spacing_counterexample :
    create_excel_from_matrix M4 T4 "Windows" "enterprise" = some (C4cells, true) ∧
    ((9, 1, "Persistence") ∈ C4cells → False) ∧
    C4cells.all (fun c => c.1 != 8 && c.1 != 9) = true ∧
    (10, 1, "Persistence") ∈ C4cells :=
  ⟨rfl, by decide, rfl, by decide⟩

/-- C4 amended: the block layout is title row (1), a blank row (2),
tactic section-header row (3), column-header row (4), three data rows
(5-7, the second technique's second sub-technique on its own row), then
TWO blank rows (8-9) — nine rows in total before the next tactic's block,
which starts at row 10. -/
theorem render_layout_nine_rows_before_next_block :
    create_excel_from_matrix M4 T4 "Windows" "enterprise" = some (C4cells, true) := rfl

end ATTCKForge
